import Mathlib

/-!
Verification of the chat server in src/main.c against its specification.

The embedding below translates the data model and the operations of the C
source into Lean. Wire data (packages, nicks, messages, reply lines) is
modelled as `List Char`; the protocol is plain ASCII, so one `Char` stands
for one byte. Timestamps (`struct timespec`) are pairs of integers.
The history is the newest-first list of messages, exactly as the C stores
it in `history.messages[0 .. length)`.
-/

namespace ChatServer

/-- TIMESTAMP_LENGTH from src/main.c line 43. -/
def TIMESTAMP_LENGTH : Nat := 10

/-- BUFFER_POOL_SIZE from src/main.c line 44: the pool holds 16 blocks. -/
def BUFFER_POOL_SIZE : Nat := 16

/-- MAX_CONNECTIONS from src/main.c line 45. -/
def MAX_CONNECTIONS : Nat := 1024

/-- MAX_MESSAGE_LENGTH from src/main.c line 46. -/
def MAX_MESSAGE_LENGTH : Nat := 140

/-- MAX_NICK_LENGTH from src/main.c line 47. -/
def MAX_NICK_LENGTH : Nat := 20

/-- MAX_HISTORY_LENGTH from src/main.c line 48. -/
def MAX_HISTORY_LENGTH : Nat := 50

/-- MAX_PACKAGE_LENGTH from src/main.c lines 49-50:
`TIMESTAMP_LENGTH + MAX_NICK_LENGTH + MAX_MESSAGE_LENGTH + 3 = 173`.
Both the per-connection buffers (`struct Buffer.data`) and the local
`outgoing` array in `process_new_package` have this size in bytes. -/
def MAX_PACKAGE_LENGTH : Nat :=
  TIMESTAMP_LENGTH + MAX_NICK_LENGTH + MAX_MESSAGE_LENGTH + 3

/-- The C `struct timespec`: seconds and nanoseconds, as integers. -/
structure Timespec where
  sec : Int
  nsec : Int
deriving DecidableEq

/-- Function `older` from src/main.c lines 217-221:
`a.tv_sec < b.tv_sec || (a.tv_sec == b.tv_sec && a.tv_nsec < b.tv_nsec)`,
the strict lexicographic order on (sec, nsec). -/
def older (a b : Timespec) : Bool :=
  decide (a.sec < b.sec ∨ (a.sec = b.sec ∧ a.nsec < b.nsec))

/-- The C `struct Message` from src/main.c lines 84-88: a history entry. -/
structure Message where
  nick : List Char
  data : List Char
  time : Timespec
deriving DecidableEq

/-- Function `add_to_history` from src/main.c lines 198-209, as its effect on the
abstract newest-first message list: the `memmove` shifts the existing
entries up by one slot, the new entry is written at index 0, and `length`
is incremented only while below `MAX_HISTORY_LENGTH`; the visible content
of `messages[0 .. length)` afterwards is the new entry consed on and the
list cut to `MAX_HISTORY_LENGTH`. (The out-of-bounds slot the `memmove`
also writes when the history is already full is captured separately by
`add_to_history_writes`.) -/
def add_to_history (nick msg : List Char) (now : Timespec)
    (hist : List Message) : List Message :=
  (⟨nick, msg, now⟩ :: hist).take MAX_HISTORY_LENGTH

/-- The array slots of `history.messages` written by one call of
`add_to_history` (src/main.c lines 203-207) when the history currently
holds `histLength` entries: the
`memmove(history.messages + 1, history.messages, length * sizeof ...)`
writes slots `1 .. histLength` (that many elements starting at slot 1),
and the `strcpy`/assignments then write slot 0. The array itself only has
slots `0 .. MAX_HISTORY_LENGTH - 1`. -/
def add_to_history_writes (histLength : Nat) : List Nat :=
  ((List.range histLength).map (· + 1)) ++ [0]

/-- The lookup `history.messages[i].time` performed by the scan loop of
`process_new_package` (src/main.c line 251), with `i` a C `int`: inside
the bounds it is the list entry, outside the array it yields whatever
bytes sit there, modelled by the arbitrary parameter `oob`. -/
def getTimeAt (hist : List Message) (oob : Timespec) (i : Int) : Timespec :=
  if h : 0 ≤ i ∧ i < (hist.length : Int) then
    (hist.get ⟨i.toNat, by omega⟩).time
  else oob

/-- The backward scan loop of `process_new_package` (src/main.c lines
250-253):
`while (older(history.messages[i].time, last_received_message) && i >= 0) --i;`
`getT i` is the read of `history.messages[i].time`; note that it is
evaluated before the bound test `i >= 0`, exactly as the C `&&` does.
Returns the final value of `i` together with the list of indices `i` at
which the read happened, in order. The fuel argument only bounds the
recursion; it is chosen large enough in `scanLoop` that the base case is
never reached. -/
def scanLoopAux (getT : Int → Timespec) (cursor : Timespec) :
    Nat → Int → Int × List Int
  | 0, i => (i, [i])
  | Nat.succ f, i =>
    let t := getT i
    if older t cursor && decide (0 ≤ i) then
      let r := scanLoopAux getT cursor f (i - 1)
      (r.1, i :: r.2)
    else (i, [i])

/-- The scan of `process_new_package` (src/main.c lines 249-253) on a
history list: `i` starts at `history.length - 1` and the loop runs as in
`scanLoopAux`. Result: final `i` and the indices read. -/
def scanLoop (hist : List Message) (cursor oob : Timespec) : Int × List Int :=
  scanLoopAux (getTimeAt hist oob) cursor (hist.length + 1)
    ((hist.length : Int) - 1)

/-- The indices of `history.messages` read while the `new` branch of
`process_new_package` scans for entries to deliver. -/
def newScanReads (hist : List Message) (cursor oob : Timespec) : List Int :=
  (scanLoop hist cursor oob).2

/-- The reply count computed at src/main.c line 254: `i + 1` with `i` the
final scan index (as a natural number; the scan never ends below -1). -/
def newCount (hist : List Message) (cursor oob : Timespec) : Nat :=
  ((scanLoop hist cursor oob).1 + 1).toNat

/-- The entries delivered by the `new` branch: the emission loop
(src/main.c lines 256-266) walks `i` down to 0, so it touches exactly the
first `i + 1` entries of the newest-first history. -/
def newSelected (hist : List Message) (cursor oob : Timespec) : List Message :=
  hist.take (newCount hist cursor oob)

/-- The `%02d` conversion of `sprintf` (src/main.c line 261) applied to a
non-negative value: minimum field width two, zero filled, so below 100 it
prints the tens digit then the units digit, and from 100 on it prints the
full decimal form. The `tm` fields passed to it lie in `0 .. 60`. -/
def pad2 (n : Nat) : List Char :=
  if n < 100 then [Nat.digitChar (n / 10), Nat.digitChar (n % 10)]
  else (Nat.repr n).toList

/-- The decimal rendering done by `sprintf(outgoing, "%d", ...)` for a
non-negative count (src/main.c lines 237 and 254). -/
def natChars (n : Nat) : List Char := (Nat.repr n).toList

/-- The line built by `sprintf(outgoing, "[%02d:%02d:%02d] %s: %s", ...)`
at src/main.c lines 261-263, from the broken-down time and the entry
fields. -/
def format_history_line (hh mi ss : Nat) (nick msg : List Char) : List Char :=
  "[".toList ++ pad2 hh ++ ":".toList ++ pad2 mi ++ ":".toList ++ pad2 ss
    ++ "] ".toList ++ nick ++ ": ".toList ++ msg

/-- The number of bytes `sprintf` stores for a formatted string: the
characters plus the terminating NUL byte. -/
def sprintf_bytes (line : List Char) : Nat := line.length + 1

/-- One history entry turned into its reply line by the emission loop of
the `new` branch (src/main.c lines 257-264): `localtime_r` is modelled by
the parameter `lt` mapping `time.tv_sec` to the broken-down
(hour, minute, second); `none` is the failure case in which the C takes
`goto close_connection`. -/
def formatLine (lt : Int → Option (Nat × Nat × Nat)) (m : Message) :
    Option (List Char) :=
  match lt m.time.sec with
  | none => none
  | some (hh, mi, ss) => some (format_history_line hh mi ss m.nick m.data)

/-- The emission loop of the `new` branch (src/main.c lines 256-266) over
the entries it visits, in visit order. Returns the reply lines enqueued
(lines produced before a `localtime_r` failure stay enqueued) and whether
the loop aborted through `goto close_connection`. -/
def emitLoop (lt : Int → Option (Nat × Nat × Nat)) :
    List Message → List (List Char) × Bool
  | [] => ([], false)
  | m :: rest =>
    match formatLine lt m with
    | none => ([], true)
    | some line =>
      let r := emitLoop lt rest
      (line :: r.1, r.2)

/-- Result of the `new` branch of `process_new_package`: the reply lines
enqueued via `send_package` in order, whether the branch ended in
`goto close_connection`, and the cursor
(`connections.data[client].last_received_message`) afterwards. -/
structure NewResult where
  replies : List (List Char)
  closedConn : Bool
  cursorAfter : Timespec
deriving DecidableEq

/-- The `new` branch of `process_new_package` (src/main.c lines 248-267):
scan backwards from the oldest entry, reply with the decimal count
`i + 1`, then emit the entries at indices `i, i - 1, ..., 0` — that is,
the first `i + 1` entries of the newest-first history in reversed order —
and finally set the cursor to the current time (`get_time()`, the `now`
parameter); the cursor update is skipped when a `localtime_r` failure
jumped to `close_connection`. -/
def process_new_cmd (lt : Int → Option (Nat × Nat × Nat))
    (hist : List Message) (cursor now oob : Timespec) : NewResult :=
  let n := newCount hist cursor oob
  let er := emitLoop lt ((hist.take n).reverse)
  { replies := natChars n :: er.1
  , closedConn := er.2
  , cursorAfter := if er.2 then cursor else now }

/-- Exit path of `process_new_package` (src/main.c lines 223-273):
`ok` is `return 0`; `closedFd` is the `close_connection` label, which
calls `close` on the socket and returns -1; `errNoClose` is the bare
`return -1` at line 244 (oversize `send` payload), which does NOT call
`close`. -/
inductive PkgOutcome
  | ok
  | closedFd
  | errNoClose
deriving DecidableEq

/-- Result of `process_new_package`: the exit path, the reply lines
enqueued (in order, without the CRLF that `send_package` appends), and
the per-connection and global state it may update: the nickname, the
cursor, and the history. -/
structure PkgResult where
  outcome : PkgOutcome
  replies : List (List Char)
  nick : List Char
  cursor : Timespec
  hist : List Message
deriving DecidableEq

/-- Function `process_new_package` from src/main.c lines 223-273.
`package` is the NUL-terminated line handed over by `process_new_data`.
`peerNicks` are the nicknames in slots `1 .. connections.length` of the
table (the `folks` loop at lines 239-241 emits exactly those);
`connLength` is `connections.length`; `now` is the value `get_time()`
returns during this call; `lt` models `localtime_r`; `oob` is the value
behind the out-of-bounds read of the scan (see `getTimeAt`); `nick` and
`cursor` are the fields of `connections.data[client]` and `hist` the
global history on entry. The branch tests mirror the C in order:
`starts_with(package, "my name is ")`, `strcmp(package, "folks")`,
`starts_with(package, "send ")`, `strcmp(package, "new")`, else the
`close_connection` label. -/
def process_new_package (lt : Int → Option (Nat × Nat × Nat))
    (peerNicks : List (List Char)) (connLength : Nat)
    (now oob : Timespec) (nick : List Char) (cursor : Timespec)
    (hist : List Message) (package : List Char) : PkgResult :=
  if ("my name is ".toList).isPrefixOf package then
    let newNick := package.drop ("my name is ".toList).length
    if MAX_NICK_LENGTH < newNick.length then
      ⟨.closedFd, [], nick, cursor, hist⟩
    else
      ⟨.ok, ["ok".toList], newNick, cursor, hist⟩
  else if package = "folks".toList then
    ⟨.ok, natChars (connLength - 1) :: peerNicks, nick, cursor, hist⟩
  else if ("send ".toList).isPrefixOf package then
    let msg := package.drop ("send ".toList).length
    if MAX_MESSAGE_LENGTH < msg.length then
      ⟨.errNoClose, [], nick, cursor, hist⟩
    else
      ⟨.ok, ["ok".toList], nick, cursor, add_to_history nick msg now hist⟩
  else if package = "new".toList then
    let r := process_new_cmd lt hist cursor now oob
    ⟨if r.closedConn then .closedFd else .ok, r.replies, nick, r.cursorAfter,
      hist⟩
  else
    ⟨.closedFd, [], nick, cursor, hist⟩

/-- The words of the specification, for comparison: the entries a `new`
request should select are exactly those whose timestamp is strictly later
than the cursor (spec section 4.4: `since(cursor)` returns all entries
whose timestamp is strictly later than `cursor`). -/
def selected_spec_strictly_later (hist : List Message) (cursor : Timespec) :
    List Message :=
  hist.filter (fun m => older cursor m.time)

/-- Block-accounting view of one connection: its `closed` bit and the
number of pool blocks chained in its `pending_to_be_sent` queue. -/
structure OwnedBlocks where
  closed : Bool
  queueLength : Nat
deriving DecidableEq

/-- Block-accounting view of the whole process: how many blocks hang on
the free list rooted in `first_free_buffer`, and the per-connection
queues. -/
structure PoolState where
  freeBuffers : Nat
  conns : List OwnedBlocks
deriving DecidableEq

/-- Total number of blocks held across all connection output queues. -/
def heldBlocks (conns : List OwnedBlocks) : Nat :=
  (conns.map (·.queueLength)).sum

/-- The pool-conservation invariant of spec section 8: free blocks plus
blocks held in connection output queues account for the whole pool. -/
def poolConservation (s : PoolState) : Prop :=
  s.freeBuffers + heldBlocks s.conns = BUFFER_POOL_SIZE

/-- Function `clean_closed_sockets` from src/main.c lines 380-390, in the
block-accounting view: the compaction keeps exactly the connections whose
`closed` bit is clear and drops the rest. The loop body only copies
`sockets[s]` and `data[s]`; `release_buffer` (src/main.c lines 152-156)
is never called here — its only caller is `handle_output` at line 342 —
so the free list is left as it was and the blocks chained in a dropped
connection are no longer reachable from anywhere. -/
def clean_closed_sockets (s : PoolState) : PoolState :=
  { freeBuffers := s.freeBuffers
  , conns := s.conns.filter (fun c => !c.closed) }

/-- One slot of the connection table, with the fields
`accept_new_client` initialises. -/
structure TableConn where
  nick : List Char
  cursor : Timespec
  closed : Bool
deriving DecidableEq

/-- Function `accept_new_client` from src/main.c lines 361-378: it sets
`n = connections.length`, then unconditionally writes `sockets[n]` and
`data[n]` (zeroed, nick `"anonym"`, cursor `get_time()`) and increments
`connections.length`. There is no test of `connections.length` against
`MAX_CONNECTIONS` anywhere in the function. Returns the table afterwards
together with the slot index that was written. -/
def accept_new_client (now : Timespec) (table : List TableConn) :
    List TableConn × Nat :=
  (table ++ [⟨"anonym".toList, now, false⟩], table.length)

/-- Result of one `send` call on the socket inside `handle_output`:
either `n` bytes were transferred, or the call failed with
`EWOULDBLOCK`/`EAGAIN`, or it failed with another error. -/
inductive SendResult
  | sent (n : Nat)
  | wouldBlock
  | otherError
deriving DecidableEq

/-- How a run of `handle_output` ends. -/
inductive DrainOutcome
  | drainedAll
  | returnedWouldBlock
  | fatalDie
  | assertionFailed
deriving DecidableEq

/-- One block on the output queue, by its `used` byte count. -/
structure OutBlock where
  used : Nat
deriving DecidableEq

/-- The drain loop of `handle_output` from src/main.c lines 333-347.
`sendFn k` is the result of the k-th `send(fd, data, used, 0)` call.
Per the C: a `-1` with `EWOULDBLOCK`/`EAGAIN` returns immediately with
the queue untouched; any other error is `die` (fatal); otherwise the code
runs `assert(sent == buffer->buffer.used)` — a transfer of fewer bytes
than `used` fails that assertion and aborts the process; on equality the
block is released and the loop advances until the queue is empty.
Returns the outcome and the queue as it stands at that point. -/
def handle_output_loop (sendFn : Nat → SendResult) :
    List OutBlock → Nat → DrainOutcome × List OutBlock
  | [], _ => (.drainedAll, [])
  | b :: rest, k =>
    match sendFn k with
    | .wouldBlock => (.returnedWouldBlock, b :: rest)
    | .otherError => (.fatalDie, b :: rest)
    | .sent n =>
      if n = b.used then handle_output_loop sendFn rest (k + 1)
      else (.assertionFailed, b :: rest)

/-- A total localtime oracle, used as concrete input: every second value
converts to the broken-down time 01:02:03. -/
def lt0 : Int → Option (Nat × Nat × Nat) := fun _ => some (1, 2, 3)

/-- Concrete one-entry history: nick `a`, message `x`, timestamp
(5 s, 0 ns). -/
def hist1 : List Message := [⟨"a".toList, "x".toList, ⟨5, 0⟩⟩]

/-- Concrete two-entry history, newest first: nick `b` posted `y` at
(10 s, 0 ns), nick `a` posted `x` at (5 s, 0 ns). -/
def hist2 : List Message :=
  [⟨"b".toList, "y".toList, ⟨10, 0⟩⟩, ⟨"a".toList, "x".toList, ⟨5, 0⟩⟩]

/-!  Helper lemmas. -/

/-- Relation `older` is the strict lexicographic order, so failing it twice in a
row composes: if `a` is not older than `b` and `b` not older than `c`,
then `a` is not older than `c`. -/
theorem not_older_trans {a b c : Timespec} (h1 : older a b = false)
    (h2 : older b c = false) : older a c = false := by
  simp only [older, decide_eq_false_iff_not] at *
  omega

/-- The scan loop only reads indices at or below its starting index, so
two read functions that agree there give the same run. -/
theorem scanLoopAux_congr (c : Timespec) (g1 g2 : Int → Timespec) :
    ∀ (f : Nat) (i : Int), (∀ j : Int, j ≤ i → g1 j = g2 j) →
      scanLoopAux g1 c f i = scanLoopAux g2 c f i := by
  intro f
  induction f with
  | zero => intro i _; rfl
  | succ f ih =>
    intro i h
    simp only [scanLoopAux]
    rw [h i le_rfl]
    by_cases hc : (older (g2 i) c && decide (0 ≤ i)) = true
    · simp only [hc, if_true]
      rw [ih (i - 1) (fun j hj => h j (by omega))]
    · simp only [Bool.not_eq_true] at hc
      simp only [hc, Bool.false_eq_true, if_false]

/-- Reading `history.messages[l.length]` in the extended history
`l ++ [m]` yields the time of `m`. -/
theorem getTimeAt_concat (l : List Message) (m : Message) (oob : Timespec) :
    getTimeAt (l ++ [m]) oob (l.length : Int) = m.time := by
  unfold getTimeAt
  rw [dif_pos]
  · simp [List.get_eq_getElem, List.getElem_concat_length]
  · constructor
    · exact Int.natCast_nonneg _
    · simp

/-- Below index `l.length`, the reads in `l ++ [m]` and in `l` agree. -/
theorem getTimeAt_concat_lt (l : List Message) (m : Message)
    (oob : Timespec) (j : Int) (hj : j < (l.length : Int)) :
    getTimeAt (l ++ [m]) oob j = getTimeAt l oob j := by
  unfold getTimeAt
  by_cases h0 : 0 ≤ j
  · have hjn : j.toNat < l.length := by omega
    rw [dif_pos ⟨h0, by simp; omega⟩, dif_pos ⟨h0, hj⟩]
    simp only [List.get_eq_getElem]
    rw [List.getElem_append_left hjn]
  · rw [dif_neg (by omega), dif_neg (by omega)]

/-- One unfolding step of the scan loop. -/
theorem scanLoopAux_succ (g : Int → Timespec) (c : Timespec) (f : Nat)
    (i : Int) :
    scanLoopAux g c (f + 1) i =
      if (older (g i) c && decide (0 ≤ i)) = true then
        ((scanLoopAux g c f (i - 1)).1, i :: (scanLoopAux g c f (i - 1)).2)
      else (i, [i]) := rfl

/-- Bridge between the C scan loop and a list computation: the final scan
index plus one equals the length of what remains of the reversed
(oldest-first) history after dropping its leading run of entries older
than the cursor. The out-of-bounds read value does not influence it. -/
theorem scanLoop_fst (c oob : Timespec) (hist : List Message) :
    (scanLoop hist c oob).1 + 1 =
      ((hist.reverse.dropWhile fun m => older m.time c).length : Int) := by
  induction hist using List.reverseRecOn with
  | nil =>
    simp [scanLoop, scanLoopAux]
  | append_singleton l m ih =>
    have hcast : (((l ++ [m]).length : Nat) : Int) - 1 = (l.length : Int) := by
      simp
    unfold scanLoop
    rw [hcast, List.length_append]
    rw [scanLoopAux_succ, getTimeAt_concat]
    by_cases hm : older m.time c = true
    · have hcond : (older m.time c && decide (0 ≤ (l.length : Int))) = true := by
        simp [hm]
      rw [if_pos hcond]
      have hagree : scanLoopAux (getTimeAt (l ++ [m]) oob) c (l.length + 1)
          ((l.length : Int) - 1)
          = scanLoopAux (getTimeAt l oob) c (l.length + 1)
            ((l.length : Int) - 1) := by
        apply scanLoopAux_congr
        intro j hj
        exact getTimeAt_concat_lt l m oob j (by omega)
      simp only [List.length_singleton, hagree]
      have hl := ih
      unfold scanLoop at hl
      rw [hl, List.reverse_concat]
      simp [List.dropWhile_cons, hm]
    · have hcond : ¬ (older m.time c && decide (0 ≤ (l.length : Int))) = true := by
        simp only [Bool.not_eq_true] at hm
        simp [hm]
      rw [if_neg hcond]
      rw [List.reverse_concat]
      simp only [Bool.not_eq_true] at hm
      simp [List.dropWhile_cons, hm]

/-- The count replied by the `new` branch, as a list computation. -/
theorem newCount_eq (c oob : Timespec) (hist : List Message) :
    newCount hist c oob =
      (hist.reverse.dropWhile fun m => older m.time c).length := by
  unfold newCount
  rw [scanLoop_fst]
  omega

/-- On a pairwise-related list along which the tested property can only
switch off (if it fails at an element, it fails at every later element),
dropping the leading run equals filtering. -/
theorem dropWhile_eq_filter_of_pairwise {α : Type} {R : α → α → Prop}
    {p : α → Bool} (hp : ∀ a b, R a b → p a = false → p b = false) :
    ∀ l : List α, l.Pairwise R → l.dropWhile p = l.filter (fun a => !p a)
  | [], _ => rfl
  | a :: t, hl => by
    rcases List.pairwise_cons.mp hl with ⟨ha, ht⟩
    by_cases hpa : p a = true
    · simp [List.dropWhile_cons, List.filter_cons, hpa,
        dropWhile_eq_filter_of_pairwise hp t ht]
    · have hpa' : p a = false := by simpa using hpa
      have hall : ∀ b ∈ t, (!p b) = true := by
        intro b hb
        simp [hp a b (ha b hb) hpa']
      simp [List.dropWhile_cons, List.filter_cons, hpa',
        List.filter_eq_self.mpr hall]

/-- On a pairwise-related list along which the kept property propagates
backwards (if it holds at an element, it holds at every earlier element),
filtering equals taking the leading run. -/
theorem filter_eq_takeWhile_of_pairwise {α : Type} {R : α → α → Prop}
    {q : α → Bool} (hq : ∀ a b, R a b → q b = true → q a = true) :
    ∀ l : List α, l.Pairwise R → l.filter q = l.takeWhile q
  | [], _ => rfl
  | a :: t, hl => by
    rcases List.pairwise_cons.mp hl with ⟨ha, ht⟩
    by_cases hqa : q a = true
    · simp [List.filter_cons, List.takeWhile_cons, hqa,
        filter_eq_takeWhile_of_pairwise hq t ht]
    · have hqa' : q a = false := by simpa using hqa
      have hall : ∀ b ∈ t, ¬ q b = true := by
        intro b hb hqb
        exact hqa (hq a b (ha b hb) hqb)
      simp [List.filter_cons, List.takeWhile_cons, hqa',
        List.filter_eq_nil_iff.mpr hall]

/-- Taking as many elements as the leading run has yields the leading
run. -/
theorem take_length_takeWhile {α : Type} (q : α → Bool) :
    ∀ l : List α, l.take (l.takeWhile q).length = l.takeWhile q
  | [] => rfl
  | a :: t => by
    by_cases hqa : q a = true
    · simp [List.takeWhile_cons, hqa, take_length_takeWhile q t]
    · have hqa' : q a = false := by simpa using hqa
      simp [List.takeWhile_cons, hqa']

/-- The scan never selects more entries than the history has. -/
theorem newCount_le_length (c oob : Timespec) (hist : List Message) :
    newCount hist c oob ≤ hist.length := by
  rw [newCount_eq]
  calc (hist.reverse.dropWhile fun m => older m.time c).length
      ≤ hist.reverse.length :=
        List.Sublist.length_le (List.dropWhile_sublist _)
    _ = hist.length := List.length_reverse _

/-- On a history sorted newest-first (non-increasing timestamps), the
entries the `new` branch delivers are exactly those not older than the
cursor; entries whose timestamp equals the cursor are among them. -/
theorem newSelected_eq_filter (c oob : Timespec) (hist : List Message)
    (hs : hist.Pairwise (fun a b => older a.time b.time = false)) :
    newSelected hist c oob = hist.filter (fun m => !older m.time c) := by
  unfold newSelected
  rw [newCount_eq]
  have hrev : hist.reverse.Pairwise
      (fun a b => older b.time a.time = false) :=
    List.pairwise_reverse.mpr hs
  have h1 : hist.reverse.dropWhile (fun m => older m.time c)
      = hist.reverse.filter (fun m => !older m.time c) :=
    dropWhile_eq_filter_of_pairwise
      (fun a b hab hpa => not_older_trans hab hpa) hist.reverse hrev
  have h2 : hist.reverse.filter (fun m => !older m.time c)
      = (hist.filter (fun m => !older m.time c)).reverse :=
    List.filter_reverse _ _
  have h3 : hist.filter (fun m => !older m.time c)
      = hist.takeWhile (fun m => !older m.time c) :=
    filter_eq_takeWhile_of_pairwise
      (fun a b hab hqb => by
        have hb : older b.time c = false := by simpa using hqb
        simp [not_older_trans hab hb])
      hist hs
  rw [h1, h2, List.length_reverse, h3, take_length_takeWhile, ← h3]

/-- With a localtime oracle that always succeeds, the emission loop
formats every visited entry and never jumps to `close_connection`. -/
theorem emitLoop_total (lt : Int → Option (Nat × Nat × Nat))
    (h : ∀ t, (lt t).isSome = true) :
    ∀ l : List Message, emitLoop lt l = (l.filterMap (formatLine lt), false)
  | [] => rfl
  | m :: rest => by
    rcases Option.isSome_iff_exists.mp (h m.time.sec) with ⟨x, hx⟩
    obtain ⟨hh, mi, ss⟩ := x
    have hfmt : formatLine lt m
        = some (format_history_line hh mi ss m.nick m.data) := by
      unfold formatLine
      rw [hx]
    simp [emitLoop, hfmt, emitLoop_total lt h rest, List.filterMap_cons]

/-!  Claim theorems. -/

/-- Claim C1: the spec states that free blocks plus blocks held across
all connection output queues always total `BUFFER_POOL_SIZE = 16`, and in
particular that compaction releases every block still held by a closed
connection. The code does not: `clean_closed_sockets` (src/main.c
380-390) drops a closed connection without calling `release_buffer`, so
its blocks leave both the free list and every queue. Witnessed here from
a conserving state — 15 free blocks and one block held by a closed
connection — which compaction turns into a state violating conservation:
15 free, none held. -/
theorem pool_conservation_broken_by_compaction :
    poolConservation ⟨15, [⟨true, 1⟩]⟩ ∧
      ¬ poolConservation (clean_closed_sockets ⟨15, [⟨true, 1⟩]⟩) := by
  unfold poolConservation clean_closed_sockets heldBlocks BUFFER_POOL_SIZE
  decide

/-- Claim C2, counterexample: the spec states the `new` reply lines come
newest first. The code emits them oldest first: with the two-entry
history `hist2` (newest entry by `b` at 10 s, older entry by `a` at 5 s)
and cursor (0, 0), the reply is the count 2, then the line of `a`, then
the line of `b` — not the newest-first order. -/
theorem new_reply_order_counterexample :
    (process_new_cmd lt0 hist2 ⟨0, 0⟩ ⟨20, 0⟩ ⟨0, 0⟩).replies
      = ["2".toList,
         format_history_line 1 2 3 "a".toList "x".toList,
         format_history_line 1 2 3 "b".toList "y".toList] ∧
    (process_new_cmd lt0 hist2 ⟨0, 0⟩ ⟨20, 0⟩ ⟨0, 0⟩).replies
      ≠ ["2".toList,
         format_history_line 1 2 3 "b".toList "y".toList,
         format_history_line 1 2 3 "a".toList "x".toList] := by decide

/-- Claim C2, amended: on a history sorted newest-first, processing `new`
enqueues first a line holding the decimal count of the entries not older
than the cursor, then those entries as formatted lines in oldest-first
(chronological) order, each built by `format_history_line` — the
`[HH:MM:SS] <nick>: <message>` shape with two-digit zero-padded fields
from the localtime conversion of the entry timestamp; afterwards the
cursor holds the current time. -/
theorem new_reply_format_oldest_first (lt : Int → Option (Nat × Nat × Nat))
    (hist : List Message) (cursor now oob : Timespec)
    (hs : hist.Pairwise (fun a b => older a.time b.time = false))
    (hlt : ∀ t, (lt t).isSome = true) :
    (process_new_cmd lt hist cursor now oob).replies
      = natChars (hist.filter (fun m => !older m.time cursor)).length
        :: ((hist.filter (fun m => !older m.time cursor)).reverse.filterMap
              (formatLine lt)) ∧
    (process_new_cmd lt hist cursor now oob).cursorAfter = now := by
  have hsel : hist.take (newCount hist cursor oob)
      = hist.filter (fun m => !older m.time cursor) :=
    newSelected_eq_filter cursor oob hist hs
  have hcount : newCount hist cursor oob
      = (hist.filter (fun m => !older m.time cursor)).length := by
    have hlen := congrArg List.length hsel
    rwa [List.length_take,
      Nat.min_eq_left (newCount_le_length cursor oob hist)] at hlen
  simp only [process_new_cmd, emitLoop_total lt hlt, Bool.false_eq_true,
    if_false]
  rw [hsel, hcount]
  exact ⟨rfl, trivial⟩

/-- Witness for the amended C2 theorem at the concrete history `hist2`,
cursor (0, 0) and current time (20, 0): both hypotheses hold and the
reply is the count followed by the filtered entries, oldest first. -/
theorem new_reply_format_oldest_first_witness :
    (hist2.Pairwise (fun a b => older a.time b.time = false)) ∧
    (∀ t, (lt0 t).isSome = true) ∧
    ((process_new_cmd lt0 hist2 ⟨0, 0⟩ ⟨20, 0⟩ ⟨0, 0⟩).replies
        = natChars (hist2.filter (fun m => !older m.time ⟨0, 0⟩)).length
          :: ((hist2.filter (fun m => !older m.time ⟨0, 0⟩)).reverse.filterMap
                (formatLine lt0)) ∧
      (process_new_cmd lt0 hist2 ⟨0, 0⟩ ⟨20, 0⟩ ⟨0, 0⟩).cursorAfter
        = ⟨20, 0⟩) :=
  ⟨by decide, fun _ => rfl,
    new_reply_format_oldest_first lt0 hist2 ⟨0, 0⟩ ⟨20, 0⟩ ⟨0, 0⟩
      (by decide) (fun _ => rfl)⟩

/-- Claim C3, counterexample: the spec states `new` selects exactly the
entries strictly later than the cursor. With `hist1` (one entry at
timestamp (5, 0)) and cursor (5, 0), the code selects the entry although
its timestamp is not strictly later than the cursor, so the selected
entries differ from the spec-worded strictly-later selection (which is
empty). -/
theorem new_selection_strict_counterexample :
    newSelected hist1 ⟨5, 0⟩ ⟨0, 0⟩ = hist1 ∧
    selected_spec_strictly_later hist1 ⟨5, 0⟩ = [] ∧
    newSelected hist1 ⟨5, 0⟩ ⟨0, 0⟩
      ≠ selected_spec_strictly_later hist1 ⟨5, 0⟩ := by decide

/-- Claim C3, amended: on a history sorted newest-first, the entries the
`new` request selects are exactly those whose timestamp is not strictly
earlier than the cursor (ties included), and — when the localtime
conversion succeeds throughout — the cursor is set to the current time
after the reply. -/
theorem new_selection_ge_cursor (lt : Int → Option (Nat × Nat × Nat))
    (hist : List Message) (cursor now oob : Timespec)
    (hs : hist.Pairwise (fun a b => older a.time b.time = false))
    (hlt : ∀ t, (lt t).isSome = true) :
    newSelected hist cursor oob
      = hist.filter (fun m => !older m.time cursor) ∧
    (process_new_cmd lt hist cursor now oob).cursorAfter = now := by
  refine ⟨newSelected_eq_filter cursor oob hist hs, ?_⟩
  simp only [process_new_cmd, emitLoop_total lt hlt, Bool.false_eq_true,
    if_false]

/-- Witness for the amended C3 theorem at `hist1`, cursor (5, 0) — a tie
with the single entry, which is selected — and current time (9, 0). -/
theorem new_selection_ge_cursor_witness :
    (hist1.Pairwise (fun a b => older a.time b.time = false)) ∧
    (∀ t, (lt0 t).isSome = true) ∧
    (newSelected hist1 ⟨5, 0⟩ ⟨0, 0⟩
        = hist1.filter (fun m => !older m.time ⟨5, 0⟩) ∧
      (process_new_cmd lt0 hist1 ⟨5, 0⟩ ⟨9, 0⟩ ⟨0, 0⟩).cursorAfter
        = ⟨9, 0⟩) :=
  ⟨by decide, fun _ => rfl,
    new_selection_ge_cursor lt0 hist1 ⟨5, 0⟩ ⟨9, 0⟩ ⟨0, 0⟩
      (by decide) (fun _ => rfl)⟩

/-- Claim C4: the spec states that appending to a full history prepends
and truncates the tail, keeping every access inside the 50-slot array.
The code violates it: when `history.length` is already
`MAX_HISTORY_LENGTH = 50`, the `memmove` of `add_to_history` (src/main.c
203-204) copies all 50 entries one slot up and therefore writes slot 50,
one past the end of `history.messages` (overwriting adjacent memory,
including the `length` field that follows the array in the struct). -/
theorem history_append_full_writes_out_of_bounds :
    MAX_HISTORY_LENGTH ∈ add_to_history_writes MAX_HISTORY_LENGTH ∧
      ¬ MAX_HISTORY_LENGTH < MAX_HISTORY_LENGTH := by decide

/-- Claim C5: the boundary cases behave as claimed — a 20-byte nick gets
`ok` and is stored, a 21-byte nick takes the `close_connection` path, a
140-byte message gets `ok` and is appended to the history — but the
141-byte message does NOT close the TCP connection: `process_new_package`
returns -1 through the bare `return` at src/main.c line 244 without
calling `close`; `handle_input` then merely sets the `closed` bit (line
320) and `clean_closed_sockets` drops the slot without ever calling
`close` on the file descriptor, so the socket stays open, against the
claim. -/
theorem oversize_send_not_closed :
    (process_new_package lt0 [] 2 ⟨0, 0⟩ ⟨0, 0⟩ "anonym".toList ⟨0, 0⟩ []
        ("my name is ".toList ++ List.replicate 20 'n'))
      = ⟨.ok, ["ok".toList], List.replicate 20 'n', ⟨0, 0⟩, []⟩ ∧
    (process_new_package lt0 [] 2 ⟨0, 0⟩ ⟨0, 0⟩ "anonym".toList ⟨0, 0⟩ []
        ("my name is ".toList ++ List.replicate 21 'n'))
      = ⟨.closedFd, [], "anonym".toList, ⟨0, 0⟩, []⟩ ∧
    (process_new_package lt0 [] 2 ⟨7, 0⟩ ⟨0, 0⟩ "anonym".toList ⟨0, 0⟩ []
        ("send ".toList ++ List.replicate 140 'a'))
      = ⟨.ok, ["ok".toList], "anonym".toList, ⟨0, 0⟩,
          [⟨"anonym".toList, List.replicate 140 'a', ⟨7, 0⟩⟩]⟩ ∧
    (process_new_package lt0 [] 2 ⟨7, 0⟩ ⟨0, 0⟩ "anonym".toList ⟨0, 0⟩ []
        ("send ".toList ++ List.replicate 141 'a'))
      = ⟨.errNoClose, [], "anonym".toList, ⟨0, 0⟩, []⟩ ∧
    PkgOutcome.errNoClose ≠ PkgOutcome.closedFd := by
  set_option maxRecDepth 100000 in decide

/-- Claim C6: the spec states a client arriving on a full table is
rejected and the table left unchanged, with no write at or beyond slot
`MAX_CONNECTIONS`. The code violates it: `accept_new_client` has no
capacity test, so on a table of length 1024 it writes slot index 1024 —
outside the 1024-slot arrays — and grows the table to length 1025. -/
theorem accept_full_table_writes_out_of_bounds :
    (accept_new_client ⟨0, 0⟩
        (List.replicate MAX_CONNECTIONS ⟨"anonym".toList, ⟨0, 0⟩, false⟩)).2
      = MAX_CONNECTIONS ∧
    ¬ (accept_new_client ⟨0, 0⟩
        (List.replicate MAX_CONNECTIONS ⟨"anonym".toList, ⟨0, 0⟩, false⟩)).2
        < MAX_CONNECTIONS ∧
    (accept_new_client ⟨0, 0⟩
        (List.replicate MAX_CONNECTIONS
          ⟨"anonym".toList, ⟨0, 0⟩, false⟩)).1.length
      ≠ MAX_CONNECTIONS := by
  have hlen : (List.replicate MAX_CONNECTIONS
      (⟨"anonym".toList, ⟨0, 0⟩, false⟩ : TableConn)).length
      = MAX_CONNECTIONS := List.length_replicate _ _
  refine ⟨?_, ?_, ?_⟩
  · simp only [accept_new_client]
    exact hlen
  · simp only [accept_new_client, hlen]
    omega
  · simp only [accept_new_client, List.length_append, hlen,
      List.length_singleton]
    omega

/-- Claim C7: the spec requires that a socket write transferring fewer
bytes than the head block holds leaves the block updated in place and
makes the drain return would-block, so no byte is sent twice or lost. The
code violates it: `handle_output` runs
`assert(sent == buffer->buffer.used)` (src/main.c line 340), so a send
that reports 2 of the 4 used bytes transferred fails the assertion and
aborts the process instead of returning would-block. -/
theorem short_write_assertion_failure :
    handle_output_loop (fun _ => .sent 2) [⟨4⟩] 0
      = (.assertionFailed, [⟨4⟩]) ∧
    DrainOutcome.assertionFailed ≠ DrainOutcome.returnedWouldBlock := by
  decide

/-- Claim C8, counterexample: after a `new` processed at current time
(5, 0) over `hist1` — whose single entry also carries timestamp (5, 0) —
the cursor becomes (5, 0); an immediately following `new` then replies
with count 1 and delivers the entry again, because the scan keeps entries
not older than the cursor and the timestamps tie. The claimed reply `0`
with no lines does not happen. -/
theorem second_new_tie_counterexample :
    (process_new_cmd lt0 hist1 ⟨0, 0⟩ ⟨5, 0⟩ ⟨0, 0⟩).cursorAfter
      = ⟨5, 0⟩ ∧
    (process_new_cmd lt0 hist1 ⟨5, 0⟩ ⟨9, 0⟩ ⟨0, 0⟩).replies
      = ["1".toList, format_history_line 1 2 3 "a".toList "x".toList] ∧
    (process_new_cmd lt0 hist1 ⟨5, 0⟩ ⟨9, 0⟩ ⟨0, 0⟩).replies
      ≠ ["0".toList] := by decide

/-- Claim C8, amended: after a successful `new` whose captured current
time `t1` is strictly later than every history entry, an immediately
following `new` with no intervening append replies with the single line
`0`: the first call sets the cursor to `t1`, and the second call, run
with cursor `t1`, counts zero entries and emits no message lines. An
entry whose timestamp equals `t1` would be delivered again instead. -/
theorem second_new_returns_zero_of_strictly_older
    (lt : Int → Option (Nat × Nat × Nat)) (hist : List Message)
    (c0 t1 t2 oob : Timespec)
    (hlt : ∀ t, (lt t).isSome = true)
    (hall : ∀ m ∈ hist, older m.time t1 = true) :
    (process_new_cmd lt hist c0 t1 oob).cursorAfter = t1 ∧
    (process_new_cmd lt hist t1 t2 oob).replies = [natChars 0] := by
  constructor
  · simp only [process_new_cmd, emitLoop_total lt hlt, Bool.false_eq_true,
      if_false]
  · have hzero : newCount hist t1 oob = 0 := by
      rw [newCount_eq]
      rw [List.dropWhile_eq_nil_iff.mpr
        (fun x hx => hall x (List.mem_reverse.mp hx))]
      rfl
    simp only [process_new_cmd, hzero, List.take_zero, List.reverse_nil,
      emitLoop_total lt hlt, List.filterMap_nil]

/-- Witness for the amended C8 theorem: `hist1` holds one entry at
timestamp (5, 0); the first `new` runs at current time (9, 0), which is
strictly later, and the second at (12, 0) replies `0`. -/
theorem second_new_returns_zero_witness :
    (∀ m ∈ hist1, older m.time ⟨9, 0⟩ = true) ∧
    ((process_new_cmd lt0 hist1 ⟨0, 0⟩ ⟨9, 0⟩ ⟨0, 0⟩).cursorAfter
        = ⟨9, 0⟩ ∧
      (process_new_cmd lt0 hist1 ⟨9, 0⟩ ⟨12, 0⟩ ⟨0, 0⟩).replies
        = [natChars 0]) :=
  ⟨by decide,
    second_new_returns_zero_of_strictly_older lt0 hist1 ⟨0, 0⟩ ⟨9, 0⟩
      ⟨12, 0⟩ ⟨0, 0⟩ (fun _ => rfl) (by decide)⟩

/-- Claim C9: the scan of the `new` branch evaluates
`older(history.messages[i].time, ...)` before testing `i >= 0`
(src/main.c line 251), so whenever the history is empty, and also when
every entry is older than the cursor, the loop reads index -1 — outside
every valid index range `[0, history.length)`. Shown on the empty history
and on `hist1` with a cursor later than its entry. -/
theorem new_scan_reads_minus_one :
    newScanReads [] ⟨0, 0⟩ ⟨0, 0⟩ = [-1] ∧
    newScanReads hist1 ⟨9, 0⟩ ⟨0, 0⟩ = [0, -1] ∧
    ¬ (0 : Int) ≤ -1 := by decide

/-- Claim C10: the spec asserts every formatted history line fits the
173-byte `outgoing` buffer. The code violates it at the boundary: with a
20-byte nick and a 140-byte message the line built by `sprintf` at
src/main.c lines 261-263 is 173 characters, so together with the
terminating NUL the call stores 174 bytes into the
`char outgoing[MAX_PACKAGE_LENGTH]` array of 173 bytes — a one-byte
overflow. -/
theorem format_line_overflows_package_buffer :
    sprintf_bytes (format_history_line 23 59 59 (List.replicate 20 'a')
        (List.replicate 140 'b')) = 174 ∧
    ¬ sprintf_bytes (format_history_line 23 59 59 (List.replicate 20 'a')
        (List.replicate 140 'b')) ≤ MAX_PACKAGE_LENGTH := by
  set_option maxRecDepth 100000 in decide

end ChatServer
